import Mathlib

/-!
Shallow embedding of the SRRM supplier-risk dashboard core
(frontend/lib/queries.ts, frontend/lib/airflow.ts, frontend/app/upload/page.tsx,
frontend/app/shap/page.tsx), together with theorems checking the
natural-language specification against it.

Conventions of the embedding:
* Database rows are Lean structures; `number | null` fields are `Option ℚ`
  (JavaScript numbers that are finite are rationals here; `NaN`/`Infinity`/
  non-numeric values show up as `none` where the code filters on
  `Number.isFinite`).
* Timestamps (`prediction_date`) are `Nat`: only their ordering matters.
* JavaScript `Array.prototype.sort` is a stable sort by the comparator; it is
  embedded as `List.insertionSort` with the non-strict relation induced by the
  comparator, which is the (unique) stable sort for that relation.
* JavaScript `Map` (insertion-ordered) becomes an association `List` where
  insertion appends and updates happen in place.
* `String.prototype.toLowerCase` / `trim` are modelled on ASCII characters,
  which is exact on the risk labels the code compares against.
-/

namespace SRRM

/-- A row of `risk_prediction_history` (`RiskPredictionHistoryRow` in
`types/db`): the `PredictionRecord` of the data model. -/
structure PredRow where
  supplier_id : String
  prediction_date : Nat
  predicted_risk : Option String
  prob_high : Option ℚ
  prob_medium : Option ℚ
  prob_low : Option ℚ
  model_version : Option String
  deriving DecidableEq, Repr

/-! ### Risk-label normalisation (queries.ts, `normalizeRiskLabel`) -/

/-- ASCII model of `String.prototype.toLowerCase` on one character. -/
def jsToLower (c : Char) : Char :=
  if c.toNat ≥ 65 ∧ c.toNat ≤ 90 then Char.ofNat (c.toNat + 32) else c

/-- Whitespace for the ASCII model of `String.prototype.trim`. -/
def jsIsSpace (c : Char) : Bool :=
  c = ' ' ∨ c = '\t' ∨ c = '\n' ∨ c = '\r'

/-- `(label ?? "").toLowerCase().replaceAll("_", " ").trim()` on a char list. -/
def normalizeChars (s : List Char) : List Char :=
  let mapped := s.map (fun c =>
    let l := jsToLower c
    if l = '_' then ' ' else l)
  ((mapped.dropWhile jsIsSpace).reverse.dropWhile jsIsSpace).reverse

/-- `normalizeRiskLabel` from queries.ts. -/
def normalizeRiskLabel (label : Option String) : List Char :=
  normalizeChars (label.getD "").toList

/-- The four risk categories the aggregator buckets entities into. -/
inductive RiskCat where
  | High
  | Medium
  | Low
  | Unknown
  deriving DecidableEq, Repr

/-- The `if r === "high risk" || r === "high" ...` chain in
`getExecutiveOverview` that buckets one prediction row. -/
def categorize (label : Option String) : RiskCat :=
  let r := normalizeRiskLabel label
  if r = "high risk".toList ∨ r = "high".toList then .High
  else if r = "medium risk".toList ∨ r = "medium".toList then .Medium
  else if r = "low risk".toList ∨ r = "low".toList then .Low
  else .Unknown

/-! ### Per-entity tallies and majority classification (getExecutiveOverview) -/

/-- The per-supplier `{ high, medium, low, unknown }` counter object. -/
structure Tally where
  high : Nat
  medium : Nat
  low : Nat
  unknown : Nat
  deriving DecidableEq, Repr

def Tally.zero : Tally := ⟨0, 0, 0, 0⟩

/-- `counts.<cat> += 1` for the bucket of one prediction row. -/
def Tally.bump (t : Tally) : RiskCat → Tally
  | .High => { t with high := t.high + 1 }
  | .Medium => { t with medium := t.medium + 1 }
  | .Low => { t with low := t.low + 1 }
  | .Unknown => { t with unknown := t.unknown + 1 }

/-- One step of filling `supplierRiskCounts` (a JS `Map`, insertion-ordered):
if the key is present the tally is bumped in place, otherwise a fresh tally
is appended and bumped. -/
def updTallies (acc : List (String × Tally)) (id : String) (c : RiskCat) :
    List (String × Tally) :=
  if acc.any (fun e => e.1 = id) then
    acc.map (fun e => if e.1 = id then (e.1, e.2.bump c) else e)
  else
    acc ++ [(id, Tally.zero.bump c)]

/-- The `for (const p of allPredictions)` loop building `supplierRiskCounts`. -/
def supplierRiskCounts (rows : List PredRow) : List (String × Tally) :=
  rows.foldl (fun acc p => updTallies acc p.supplier_id (categorize p.predicted_risk)) []

/-- `Math.max(counts.high, counts.medium, counts.low, counts.unknown)`. -/
def Tally.maxCount (t : Tally) : Nat :=
  max (max t.high t.medium) (max t.low t.unknown)

/-- The majority assignment of `getExecutiveOverview`:
`if (counts.high === max) ... else if (counts.medium === max) ...`. -/
def majority (t : Tally) : RiskCat :=
  if t.high = t.maxCount then .High
  else if t.medium = t.maxCount then .Medium
  else if t.low = t.maxCount then .Low
  else .Unknown

/-- Count of one category in a tally. -/
def Tally.count (t : Tally) : RiskCat → Nat
  | .High => t.high
  | .Medium => t.medium
  | .Low => t.low
  | .Unknown => t.unknown

/-- Spec-side definition, from the spec's words: evaluate the categories in
the fixed priority order High, Medium, Low, Unknown and return the first one
whose count equals the maximum tally. -/
def specFirstMaxCategory (t : Tally) : RiskCat :=
  (([RiskCat.High, .Medium, .Low, .Unknown].find? (fun c => t.count c = t.maxCount)).getD .Unknown)

/-- The global `riskCounts` object accumulated over `supplierRiskCounts`. -/
structure RiskCounts where
  High : Nat
  Medium : Nat
  Low : Nat
  Unknown : Nat
  deriving DecidableEq, Repr

def RiskCounts.bump (rc : RiskCounts) : RiskCat → RiskCounts
  | .High => { rc with High := rc.High + 1 }
  | .Medium => { rc with Medium := rc.Medium + 1 }
  | .Low => { rc with Low := rc.Low + 1 }
  | .Unknown => { rc with Unknown := rc.Unknown + 1 }

/-- The `for (const [supplierId, counts] of supplierRiskCounts)` loop of
`getExecutiveOverview` assigning each supplier to its majority category. -/
def riskCounts (rows : List PredRow) : RiskCounts :=
  (supplierRiskCounts rows).foldl (fun rc e => rc.bump (majority e.2)) ⟨0, 0, 0, 0⟩

def RiskCounts.total (rc : RiskCounts) : Nat :=
  rc.High + rc.Medium + rc.Low + rc.Unknown

/-! ### Lemmas about the majority classification -/

theorem Tally.maxCount_attained (t : Tally) :
    t.high = t.maxCount ∨ t.medium = t.maxCount ∨ t.low = t.maxCount ∨ t.unknown = t.maxCount := by
  unfold Tally.maxCount
  rcases max_choice (max t.high t.medium) (max t.low t.unknown) with h | h
  · rcases max_choice t.high t.medium with h2 | h2
    · exact Or.inl (by rw [h, h2])
    · exact Or.inr (Or.inl (by rw [h, h2]))
  · rcases max_choice t.low t.unknown with h2 | h2
    · exact Or.inr (Or.inr (Or.inl (by rw [h, h2])))
    · exact Or.inr (Or.inr (Or.inr (by rw [h, h2])))

theorem majority_eq_specFirstMax (t : Tally) : majority t = specFirstMaxCategory t := by
  unfold majority specFirstMaxCategory
  by_cases h1 : t.high = t.maxCount
  · simp [List.find?, Tally.count, h1]
  · by_cases h2 : t.medium = t.maxCount
    · simp [List.find?, Tally.count, h1, h2]
    · by_cases h3 : t.low = t.maxCount
      · simp [List.find?, Tally.count, h1, h2, h3]
      · have h4 : t.unknown = t.maxCount := by
          rcases Tally.maxCount_attained t with h | h | h | h
          · exact absurd h h1
          · exact absurd h h2
          · exact absurd h h3
          · exact h
        simp [List.find?, Tally.count, h1, h2, h3, h4]

/-! ### Lemmas about the per-category partition -/

theorem updTallies_keys (acc : List (String × Tally)) (id : String) (c : RiskCat) :
    (updTallies acc id c).map Prod.fst =
      if acc.any (fun e => e.1 = id) then acc.map Prod.fst
      else acc.map Prod.fst ++ [id] := by
  unfold updTallies
  split
  · simp only [if_true, List.map_map]
    refine List.map_congr_left ?_
    intro a _
    by_cases h : a.1 = id <;> simp [h]
  · simp

theorem updTallies_keys_toFinset (acc : List (String × Tally)) (id : String) (c : RiskCat) :
    ((updTallies acc id c).map Prod.fst).toFinset =
      insert id (acc.map Prod.fst).toFinset := by
  rw [updTallies_keys]
  by_cases h : acc.any (fun e => e.1 = id)
  · have hmem : id ∈ (acc.map Prod.fst).toFinset := by
      simp only [List.any_eq_true, decide_eq_true_eq] at h
      obtain ⟨e, he, heq⟩ := h
      simp only [List.mem_toFinset, List.mem_map]
      exact ⟨e, he, heq⟩
    rw [if_pos h, (Finset.insert_eq_self.mpr hmem)]
  · rw [if_neg h]
    simp [List.toFinset_append, Finset.union_comm, Finset.insert_eq]

theorem updTallies_keys_nodup (acc : List (String × Tally)) (id : String) (c : RiskCat)
    (h : (acc.map Prod.fst).Nodup) : ((updTallies acc id c).map Prod.fst).Nodup := by
  rw [updTallies_keys]
  by_cases hc : acc.any (fun e => e.1 = id)
  · rwa [if_pos hc]
  · rw [if_neg hc]
    have hid : id ∉ acc.map Prod.fst := by
      simp only [List.any_eq_true, decide_eq_true_eq] at hc
      simp only [List.mem_map]
      rintro ⟨e, he, heq⟩
      exact hc ⟨e, he, heq⟩
    simp [List.nodup_append, h, hid, List.disjoint_singleton]

/-- The body of the tally-building fold, abbreviated. -/
def countsFold (acc : List (String × Tally)) (rows : List PredRow) : List (String × Tally) :=
  rows.foldl (fun acc p => updTallies acc p.supplier_id (categorize p.predicted_risk)) acc

theorem supplierRiskCounts_eq_countsFold (rows : List PredRow) :
    supplierRiskCounts rows = countsFold [] rows := rfl

theorem countsFold_keys_toFinset (rows : List PredRow) :
    ∀ acc, ((countsFold acc rows).map Prod.fst).toFinset =
      (acc.map Prod.fst).toFinset ∪ (rows.map PredRow.supplier_id).toFinset := by
  induction rows with
  | nil => intro acc; simp [countsFold]
  | cons x xs ih =>
    intro acc
    have hstep : countsFold acc (x :: xs) =
        countsFold (updTallies acc x.supplier_id (categorize x.predicted_risk)) xs := rfl
    rw [hstep, ih, updTallies_keys_toFinset]
    simp only [List.map_cons, List.toFinset_cons]
    rw [Finset.insert_union, Finset.union_insert]

theorem countsFold_keys_nodup (rows : List PredRow) :
    ∀ acc, (acc.map Prod.fst).Nodup → ((countsFold acc rows).map Prod.fst).Nodup := by
  induction rows with
  | nil => intro acc h; simpa [countsFold] using h
  | cons x xs ih =>
    intro acc h
    exact ih _ (updTallies_keys_nodup acc _ _ h)

theorem RiskCounts.bump_total (rc : RiskCounts) (c : RiskCat) :
    (rc.bump c).total = rc.total + 1 := by
  cases c <;> simp [RiskCounts.bump, RiskCounts.total] <;> omega

theorem riskCounts_fold_total (l : List (String × Tally)) :
    ∀ rc : RiskCounts,
      (l.foldl (fun rc e => rc.bump (majority e.2)) rc).total = rc.total + l.length := by
  induction l with
  | nil => intro rc; simp
  | cons x xs ih =>
    intro rc
    rw [List.foldl_cons, ih, RiskCounts.bump_total]
    simp [Nat.add_comm, Nat.add_assoc, Nat.add_left_comm]

theorem supplierRiskCounts_length (rows : List PredRow) :
    (supplierRiskCounts rows).length = ((rows.map PredRow.supplier_id).toFinset).card := by
  have hn : ((supplierRiskCounts rows).map Prod.fst).Nodup := by
    rw [supplierRiskCounts_eq_countsFold]
    exact countsFold_keys_nodup rows [] (by simp)
  have hf : ((supplierRiskCounts rows).map Prod.fst).toFinset =
      (rows.map PredRow.supplier_id).toFinset := by
    rw [supplierRiskCounts_eq_countsFold, countsFold_keys_toFinset]
    simp
  calc (supplierRiskCounts rows).length
      = ((supplierRiskCounts rows).map Prod.fst).length := by simp
    _ = ((supplierRiskCounts rows).map Prod.fst).toFinset.card :=
        (List.toFinset_card_of_nodup hn).symm
    _ = ((rows.map PredRow.supplier_id).toFinset).card := by rw [hf]

/-! ### Claim theorems C1 and C2 -/

/-- Claim C1: for every entity with at least one prediction record (i.e. every
entry of the tally map built by the Risk Aggregator), the majority
classification equals the first category, evaluated in the fixed priority
order High, Medium, Low, Unknown, whose count equals the maximum tally; in
particular a tally of high 2 / medium 2 classifies as High and a tally of
medium 3 / low 3 classifies as Medium. -/
theorem claim1_majority_priority_order (rows : List PredRow) (id : String) (t : Tally)
    (_hmem : (id, t) ∈ supplierRiskCounts rows) :
    majority t = specFirstMaxCategory t ∧
    majority ⟨2, 2, 0, 0⟩ = RiskCat.High ∧
    majority ⟨0, 3, 3, 0⟩ = RiskCat.Medium :=
  ⟨majority_eq_specFirstMax t, by decide, by decide⟩

/-- Witness for C1 at a one-record history for supplier S1. -/
theorem claim1_majority_priority_order_witness :
    ((("S1", (⟨1, 0, 0, 0⟩ : Tally))) ∈
        supplierRiskCounts [⟨"S1", 0, some "High", none, none, none, none⟩]) ∧
    (majority ⟨1, 0, 0, 0⟩ = specFirstMaxCategory ⟨1, 0, 0, 0⟩ ∧
     majority ⟨2, 2, 0, 0⟩ = RiskCat.High ∧
     majority ⟨0, 3, 3, 0⟩ = RiskCat.Medium) :=
  ⟨by decide,
   claim1_majority_priority_order [⟨"S1", 0, some "High", none, none, none, none⟩]
     "S1" ⟨1, 0, 0, 0⟩ (by decide)⟩

/-- Claim C2: for every input collection of prediction records, the four
global category counts produced by the Risk Aggregator sum exactly to the
number of distinct entity ids present in the input. -/
theorem claim2_riskCounts_partition (rows : List PredRow) :
    (riskCounts rows).total = ((rows.map PredRow.supplier_id).toFinset).card := by
  have h := riskCounts_fold_total (supplierRiskCounts rows) ⟨0, 0, 0, 0⟩
  unfold riskCounts
  rw [h]
  simpa [RiskCounts.total] using supplierRiskCounts_length rows

/-! ### Latest-Record Resolver (queries.ts, `getLatestPredictionsPerSupplier`) -/

/-- Code-point lexicographic comparison of char lists: the model of the
store's ascending text ordering on supplier ids. -/
def lexLt : List Char → List Char → Bool
  | _, [] => false
  | [], _ :: _ => true
  | a :: as, b :: bs => if a < b then true else if a = b then lexLt as bs else false

def strLt (a b : String) : Bool := lexLt a.toList b.toList

theorem lexLt_irrefl : ∀ s : List Char, lexLt s s = false
  | [] => rfl
  | a :: as => by simp [lexLt, lt_irrefl, lexLt_irrefl as]

theorem strLt_irrefl (s : String) : strLt s s = false := lexLt_irrefl _

theorem lexLt_trichotomy : ∀ s t : List Char, lexLt s t = true ∨ lexLt t s = true ∨ s = t
  | [], [] => Or.inr (Or.inr rfl)
  | [], _ :: _ => Or.inl rfl
  | _ :: _, [] => Or.inr (Or.inl rfl)
  | a :: as, b :: bs => by
    rcases lt_trichotomy a b with h | h | h
    · exact Or.inl (by simp [lexLt, h])
    · subst h
      rcases lexLt_trichotomy as bs with h2 | h2 | h2
      · exact Or.inl (by simp [lexLt, lt_irrefl, h2])
      · exact Or.inr (Or.inl (by simp [lexLt, lt_irrefl, h2]))
      · exact Or.inr (Or.inr (by rw [h2]))
    · exact Or.inr (Or.inl (by simp [lexLt, h]))

theorem lexLt_trans : ∀ s t u : List Char,
    lexLt s t = true → lexLt t u = true → lexLt s u = true := by
  intro s
  induction s with
  | nil =>
    intro t u h1 h2
    cases t with
    | nil => exact h2
    | cons b bs =>
      cases u with
      | nil => simp [lexLt] at h2
      | cons c cs => rfl
  | cons a as ih =>
    intro t u h1 h2
    cases t with
    | nil => simp [lexLt] at h1
    | cons b bs =>
      cases u with
      | nil => simp [lexLt] at h2
      | cons c cs =>
        by_cases hab : a < b
        · by_cases hbc : b < c
          · simp [lexLt, lt_trans hab hbc]
          · by_cases hbc2 : b = c
            · subst hbc2; simp [lexLt, hab]
            · simp [lexLt, hbc, hbc2] at h2
        · by_cases hab2 : a = b
          · subst hab2
            by_cases hbc : a < c
            · simp [lexLt, hbc]
            · by_cases hbc2 : a = c
              · subst hbc2
                simp only [lexLt, lt_irrefl, if_false, if_pos rfl] at h1 h2 ⊢
                exact ih bs cs h1 h2
              · simp [lexLt, hbc, hbc2] at h2
          · simp [lexLt, hab, hab2] at h1

/-- `order("supplier_id", { ascending: true }).order("prediction_date",
{ ascending: false })`: the non-strict row ordering requested from the store,
whose stable sort models the ordered read. -/
def predOrder (a b : PredRow) : Prop :=
  strLt a.supplier_id b.supplier_id = true ∨
    (a.supplier_id = b.supplier_id ∧ b.prediction_date ≤ a.prediction_date)

instance : DecidableRel predOrder := fun a b => by unfold predOrder; exact inferInstance

theorem predOrder_refl (a : PredRow) : predOrder a a := Or.inr ⟨rfl, le_refl _⟩

instance : IsTotal PredRow predOrder := ⟨by
  intro a b
  rcases lexLt_trichotomy a.supplier_id.toList b.supplier_id.toList with h | h | h
  · exact Or.inl (Or.inl h)
  · exact Or.inr (Or.inl h)
  · have hs : a.supplier_id = b.supplier_id := by
      cases hA : a.supplier_id with
      | mk dA =>
        cases hB : b.supplier_id with
        | mk dB =>
          rw [hA, hB] at h
          exact congrArg String.mk h
    rcases Nat.le_total a.prediction_date b.prediction_date with hd | hd
    · exact Or.inr (Or.inr ⟨hs.symm, hd⟩)
    · exact Or.inl (Or.inr ⟨hs, hd⟩)⟩

instance : IsTrans PredRow predOrder := ⟨by
  intro a b c hab hbc
  rcases hab with h1 | ⟨h1, d1⟩ <;> rcases hbc with h2 | ⟨h2, d2⟩
  · exact Or.inl (lexLt_trans _ _ _ h1 h2)
  · exact Or.inl (h2 ▸ h1)
  · refine Or.inl ?_
    rw [strLt, h1]
    exact h2
  · exact Or.inr ⟨h1.trans h2, d2.trans d1⟩⟩

/-- The rows as returned by the ordered read. -/
def sortedPredictionRows (rows : List PredRow) : List PredRow :=
  List.insertionSort predOrder rows

/-- One step of filling the `latestBySupplier` JS `Map`:
`if (!latestBySupplier.has(r.supplier_id)) latestBySupplier.set(...)`. -/
def keepFirstStep (acc : List PredRow) (r : PredRow) : List PredRow :=
  if acc.any (fun x => x.supplier_id = r.supplier_id) then acc else acc ++ [r]

/-- The `for (const r of rows)` loop over the ordered rows, then
`Array.from(latestBySupplier.values())` (insertion order). -/
def keepFirstPerSupplier (l : List PredRow) : List PredRow :=
  l.foldl keepFirstStep []

/-- `getLatestPredictionsPerSupplier` from queries.ts. -/
def getLatestPredictionsPerSupplier (rows : List PredRow) : List PredRow :=
  keepFirstPerSupplier (sortedPredictionRows rows)

theorem keepFirst_fold_mem (l : List PredRow) :
    ∀ acc, List.Sorted predOrder l →
      ∀ r ∈ l.foldl keepFirstStep acc,
        r ∈ acc ∨ (r ∈ l ∧ (∀ x ∈ acc, x.supplier_id ≠ r.supplier_id) ∧
          ∀ s ∈ l, s.supplier_id = r.supplier_id → predOrder r s) := by
  induction l with
  | nil => intro acc _ r hr; exact Or.inl hr
  | cons x xs ih =>
    intro acc hp r hr
    have hpx : ∀ y ∈ xs, predOrder x y := (List.sorted_cons.mp hp).1
    have hpxs : List.Sorted predOrder xs := (List.sorted_cons.mp hp).2
    rcases ih (keepFirstStep acc x) hpxs r hr with hmem | ⟨hrxs, hnotin, hmax⟩
    · unfold keepFirstStep at hmem
      by_cases hc : acc.any (fun y => y.supplier_id = x.supplier_id)
      · rw [if_pos hc] at hmem
        exact Or.inl hmem
      · rw [if_neg hc] at hmem
        rcases List.mem_append.mp hmem with h | h
        · exact Or.inl h
        · have hrx : r = x := by simpa using h
          subst hrx
          refine Or.inr ⟨List.mem_cons_self _ _, ?_, ?_⟩
          · intro z hz he
            simp only [List.any_eq_true, decide_eq_true_eq] at hc
            exact hc ⟨z, hz, he⟩
          · intro s hs he
            rcases List.mem_cons.mp hs with h1 | h1
            · rw [h1]; exact predOrder_refl r
            · exact hpx s h1
    · have hsub : ∀ z ∈ acc, z ∈ keepFirstStep acc x := by
        intro z hz
        unfold keepFirstStep
        by_cases hc : acc.any (fun y => y.supplier_id = x.supplier_id)
        · rwa [if_pos hc]
        · rw [if_neg hc]; exact List.mem_append_left _ hz
      have hxid : x.supplier_id ≠ r.supplier_id := by
        unfold keepFirstStep at hnotin
        by_cases hc : acc.any (fun y => y.supplier_id = x.supplier_id)
        · rw [if_pos hc] at hnotin
          simp only [List.any_eq_true, decide_eq_true_eq] at hc
          obtain ⟨y, hy, hyid⟩ := hc
          rw [← hyid]
          exact hnotin y hy
        · rw [if_neg hc] at hnotin
          exact hnotin x (List.mem_append_right _ (List.mem_singleton_self _))
      refine Or.inr ⟨List.mem_cons_of_mem _ hrxs, ?_, ?_⟩
      · intro z hz
        exact hnotin z (hsub z hz)
      · intro s hs he
        rcases List.mem_cons.mp hs with h1 | h1
        · exact absurd (h1 ▸ he) hxid
        · exact hmax s h1 he

theorem keepFirstStep_ids (acc : List PredRow) (r : PredRow) :
    (keepFirstStep acc r).map PredRow.supplier_id =
      if acc.any (fun x => x.supplier_id = r.supplier_id) then
        acc.map PredRow.supplier_id
      else acc.map PredRow.supplier_id ++ [r.supplier_id] := by
  unfold keepFirstStep
  split <;> simp

theorem keepFirstStep_ids_toFinset (acc : List PredRow) (r : PredRow) :
    ((keepFirstStep acc r).map PredRow.supplier_id).toFinset =
      insert r.supplier_id (acc.map PredRow.supplier_id).toFinset := by
  rw [keepFirstStep_ids]
  by_cases h : acc.any (fun x => x.supplier_id = r.supplier_id)
  · have hmem : r.supplier_id ∈ (acc.map PredRow.supplier_id).toFinset := by
      simp only [List.any_eq_true, decide_eq_true_eq] at h
      obtain ⟨e, he, heq⟩ := h
      simp only [List.mem_toFinset, List.mem_map]
      exact ⟨e, he, heq⟩
    rw [if_pos h, (Finset.insert_eq_self.mpr hmem)]
  · rw [if_neg h]
    simp [List.toFinset_append, Finset.union_comm, Finset.insert_eq]

theorem keepFirstStep_ids_nodup (acc : List PredRow) (r : PredRow)
    (h : (acc.map PredRow.supplier_id).Nodup) :
    ((keepFirstStep acc r).map PredRow.supplier_id).Nodup := by
  rw [keepFirstStep_ids]
  by_cases hc : acc.any (fun x => x.supplier_id = r.supplier_id)
  · rwa [if_pos hc]
  · rw [if_neg hc]
    have hid : r.supplier_id ∉ acc.map PredRow.supplier_id := by
      simp only [List.any_eq_true, decide_eq_true_eq] at hc
      simp only [List.mem_map]
      rintro ⟨e, he, heq⟩
      exact hc ⟨e, he, heq⟩
    simp [List.nodup_append, h, hid, List.disjoint_singleton]

theorem keepFirst_fold_ids_nodup (l : List PredRow) :
    ∀ acc, (acc.map PredRow.supplier_id).Nodup →
      ((l.foldl keepFirstStep acc).map PredRow.supplier_id).Nodup := by
  induction l with
  | nil => intro acc h; simpa using h
  | cons x xs ih => intro acc h; exact ih _ (keepFirstStep_ids_nodup acc x h)

theorem keepFirst_fold_ids_toFinset (l : List PredRow) :
    ∀ acc, ((l.foldl keepFirstStep acc).map PredRow.supplier_id).toFinset =
      (acc.map PredRow.supplier_id).toFinset ∪ (l.map PredRow.supplier_id).toFinset := by
  induction l with
  | nil => intro acc; simp
  | cons x xs ih =>
    intro acc
    have hstep : (x :: xs).foldl keepFirstStep acc = xs.foldl keepFirstStep (keepFirstStep acc x) := rfl
    rw [hstep, ih, keepFirstStep_ids_toFinset]
    simp only [List.map_cons, List.toFinset_cons]
    rw [Finset.insert_union, Finset.union_insert]

/-- Claim C3: the Latest-Record Resolver returns exactly one record per
distinct entity id present in the input (no duplicate ids, and the set of
output ids equals the set of input ids); every returned record is an input
record whose `prediction_date` is maximal among that entity's records; and
empty input yields an empty result. -/
theorem claim3_latest_record_resolver (rows : List PredRow) :
    ((getLatestPredictionsPerSupplier rows).map PredRow.supplier_id).Nodup ∧
    ((getLatestPredictionsPerSupplier rows).map PredRow.supplier_id).toFinset
      = (rows.map PredRow.supplier_id).toFinset ∧
    (∀ r ∈ getLatestPredictionsPerSupplier rows,
      r ∈ rows ∧ ∀ s ∈ rows, s.supplier_id = r.supplier_id →
        s.prediction_date ≤ r.prediction_date) ∧
    getLatestPredictionsPerSupplier [] = [] := by
  have hperm : List.Perm (sortedPredictionRows rows) rows := List.perm_insertionSort _ _
  have hsorted : List.Sorted predOrder (sortedPredictionRows rows) :=
    List.sorted_insertionSort _ _
  refine ⟨keepFirst_fold_ids_nodup _ [] (by simp), ?_, ?_, rfl⟩
  · have h := keepFirst_fold_ids_toFinset (sortedPredictionRows rows) []
    have h2 : ((sortedPredictionRows rows).map PredRow.supplier_id).toFinset =
        (rows.map PredRow.supplier_id).toFinset :=
      List.toFinset_eq_of_perm _ _ (hperm.map _)
    unfold getLatestPredictionsPerSupplier keepFirstPerSupplier
    rw [h, ← h2]
    simp
  · intro r hr
    rcases keepFirst_fold_mem _ [] hsorted r hr with h | ⟨hmem, _, hmax⟩
    · simp at h
    · refine ⟨hperm.mem_iff.mp hmem, ?_⟩
      intro s hs he
      have hso : s ∈ sortedPredictionRows rows := hperm.mem_iff.mpr hs
      rcases hmax s hso he with h1 | ⟨_, h2⟩
      · rw [he] at h1
        rw [strLt_irrefl] at h1
        exact absurd h1 (by simp)
      · exact h2

/-- Witness for C3 at the spec's example: E1 at dates 1 and 2, E2 at date 1;
the resolver returns exactly E1's later record and E2's record. -/
theorem claim3_latest_record_resolver_witness :
    ((⟨"E1", 1, none, none, none, none, none⟩ : PredRow).prediction_date ≤
      (⟨"E1", 2, none, none, none, none, none⟩ : PredRow).prediction_date) ∧
    getLatestPredictionsPerSupplier
        [⟨"E1", 1, none, none, none, none, none⟩,
         ⟨"E1", 2, none, none, none, none, none⟩,
         ⟨"E2", 1, none, none, none, none, none⟩] =
      [⟨"E1", 2, none, none, none, none, none⟩,
       ⟨"E2", 1, none, none, none, none, none⟩] :=
  ⟨((claim3_latest_record_resolver
      [⟨"E1", 1, none, none, none, none, none⟩,
       ⟨"E1", 2, none, none, none, none, none⟩,
       ⟨"E2", 1, none, none, none, none, none⟩]).2.2.1
      ⟨"E1", 2, none, none, none, none, none⟩ (by decide)).2
      ⟨"E1", 1, none, none, none, none, none⟩ (by decide) rfl,
   by decide⟩

/-! ### Top-N high-risk and global average (getExecutiveOverview) -/

/-- `r.prob_high ?? 0`: the key used by the sort comparator and the average. -/
def probHighKey (r : PredRow) : ℚ := r.prob_high.getD 0

/-- The non-strict relation induced by a descending numeric-key comparator
`(a, b) => k(b) - k(a)`; JavaScript `Array.prototype.sort` is stable, so the
sorted array is the stable sort by this relation. -/
def keyDesc {α : Type} (k : α → ℚ) (a b : α) : Prop := k b ≤ k a

instance {α : Type} (k : α → ℚ) : DecidableRel (keyDesc k) := fun a b => by
  unfold keyDesc; exact inferInstance

instance {α : Type} (k : α → ℚ) : IsTotal α (keyDesc k) := ⟨fun _ _ => le_total _ _⟩

instance {α : Type} (k : α → ℚ) : IsTrans α (keyDesc k) :=
  ⟨fun _ _ _ h1 h2 => le_trans h2 h1⟩

/-- `[...allWithNames].sort((a, b) => (b.prob_high ?? 0) - (a.prob_high ?? 0))`
in `getExecutiveOverview` (the attached `supplier_name` does not affect the
ordering and is dropped by the embedding). -/
def sortedByProbHigh (rows : List PredRow) : List PredRow :=
  List.insertionSort (keyDesc probHighKey) rows

/-- `topHighRisk`: the sorted array truncated with `.slice(0, 10)`. -/
def topHighRisk (rows : List PredRow) : List PredRow :=
  (sortedByProbHigh rows).take 10

/-- Stability of one ordered insertion: the sublist of entries whose key is a
given value `q` gains `x` at its front when `k x = q` and is unchanged
otherwise. -/
theorem filter_key_orderedInsert {α : Type} (k : α → ℚ) (q : ℚ) (x : α) :
    ∀ l : List α,
      (List.orderedInsert (keyDesc k) x l).filter (fun r => k r = q) =
        if k x = q then x :: l.filter (fun r => k r = q)
        else l.filter (fun r => k r = q)
  | [] => by by_cases h : k x = q <;> simp [h]
  | y :: ys => by
    by_cases hxy : keyDesc k x y
    · by_cases h : k x = q <;>
        simp [List.orderedInsert, hxy, List.filter_cons, h]
    · have hgt : ¬ (k y ≤ k x) := hxy
      by_cases h : k x = q
      · have hyq : ¬ (k y = q) := fun he => hgt (by rw [he, h])
        simp [List.orderedInsert, hxy, List.filter_cons, hyq,
          filter_key_orderedInsert k q x ys, h]
      · simp [List.orderedInsert, hxy, List.filter_cons,
          filter_key_orderedInsert k q x ys, h]

/-- Stability of the embedded sort: for every key value, the entries with that
key appear in the sorted list in their input order. -/
theorem filter_key_insertionSort {α : Type} (k : α → ℚ) (q : ℚ) :
    ∀ l : List α,
      (List.insertionSort (keyDesc k) l).filter (fun r => k r = q) =
        l.filter (fun r => k r = q)
  | [] => rfl
  | x :: xs => by
    rw [List.insertionSort, filter_key_orderedInsert k q x]
    by_cases h : k x = q <;>
      simp [h, List.filter_cons, filter_key_insertionSort k q xs]

/-- Claim C6: the Top-N high-risk result is the input sorted by `prob_high`
descending (null as 0), truncated to the first 10; the sorted list is a
permutation of the input, is sorted, and is stable (entries with any given
key value keep their input order); on prob_high values 0.9, 0.1, 0.9, 0.5 the
output is the two 0.9 records in input order, then 0.5, then 0.1. -/
theorem claim6_top_high_risk (rows : List PredRow) :
    topHighRisk rows = (sortedByProbHigh rows).take 10 ∧
    List.Perm (sortedByProbHigh rows) rows ∧
    List.Sorted (keyDesc probHighKey) (sortedByProbHigh rows) ∧
    (∀ q : ℚ, (sortedByProbHigh rows).filter (fun r => probHighKey r = q) =
      rows.filter (fun r => probHighKey r = q)) ∧
    ((mkRat 9 10 : ℚ) = 0.9 ∧ (mkRat 1 10 : ℚ) = 0.1 ∧ (mkRat 1 2 : ℚ) = 0.5) ∧
    topHighRisk
        [⟨"A", 0, none, some (mkRat 9 10), none, none, none⟩,
         ⟨"B", 0, none, some (mkRat 1 10), none, none, none⟩,
         ⟨"C", 0, none, some (mkRat 9 10), none, none, none⟩,
         ⟨"D", 0, none, some (mkRat 1 2), none, none, none⟩] =
      [⟨"A", 0, none, some (mkRat 9 10), none, none, none⟩,
       ⟨"C", 0, none, some (mkRat 9 10), none, none, none⟩,
       ⟨"D", 0, none, some (mkRat 1 2), none, none, none⟩,
       ⟨"B", 0, none, some (mkRat 1 10), none, none, none⟩] :=
  ⟨rfl, List.perm_insertionSort _ _, List.sorted_insertionSort _ _,
   fun q => filter_key_insertionSort probHighKey q rows,
   ⟨by rw [Rat.mkRat_eq_divInt, Rat.divInt_eq_div]; norm_num,
    by rw [Rat.mkRat_eq_divInt, Rat.divInt_eq_div]; norm_num,
    by rw [Rat.mkRat_eq_divInt, Rat.divInt_eq_div]; norm_num⟩,
   by decide⟩

/-- `avgProbHigh` from `getExecutiveOverview`: `null` when there are no rows,
else `allPredictions.reduce((sum, r) => sum + (r.prob_high ?? 0), 0)` divided
by `allPredictions.length`. -/
def avgProbHigh (rows : List PredRow) : Option ℚ :=
  if rows.length = 0 then none
  else some ((rows.foldl (fun s r => s + probHighKey r) 0) / rows.length)

theorem foldl_add_key {α : Type} (k : α → ℚ) :
    ∀ (l : List α) (init : ℚ),
      l.foldl (fun s r => s + k r) init = init + (l.map k).sum
  | [], init => by simp
  | x :: xs, init => by
    rw [List.foldl_cons, foldl_add_key k xs (init + k x)]
    simp [add_assoc]

/-- Claim C7: the global average prob_high is null exactly on an empty record
collection (never NaN, never 0 there, since it is `none`); on a nonempty
collection it is the arithmetic mean of `prob_high` over all records with
null coerced to 0; on values 0.2, null, 0.6 it is 4/15. -/
theorem claim7_avg_prob_high (rows : List PredRow) :
    (avgProbHigh rows = none ↔ rows = []) ∧
    (rows ≠ [] →
      avgProbHigh rows = some ((rows.map probHighKey).sum / rows.length)) ∧
    avgProbHigh
        [⟨"A", 0, none, some 0.2, none, none, none⟩,
         ⟨"B", 0, none, none, none, none, none⟩,
         ⟨"C", 0, none, some 0.6, none, none, none⟩] = some (4/15) := by
  refine ⟨?_, ?_, by norm_num [avgProbHigh, probHighKey]⟩
  · constructor
    · intro h
      unfold avgProbHigh at h
      by_cases hl : rows.length = 0
      · exact List.length_eq_zero.mp hl
      · rw [if_neg hl] at h
        exact absurd h (by simp)
    · intro h
      subst h
      rfl
  · intro h
    have hl : rows.length ≠ 0 := fun hc => h (List.length_eq_zero.mp hc)
    unfold avgProbHigh
    rw [if_neg hl, foldl_add_key probHighKey rows 0, zero_add]

/-- Witness for C7: the nonempty-mean case at the spec's example list, and
the empty case. -/
theorem claim7_avg_prob_high_witness :
    avgProbHigh
        [⟨"A", 0, none, some 0.2, none, none, none⟩,
         ⟨"B", 0, none, none, none, none, none⟩,
         ⟨"C", 0, none, some 0.6, none, none, none⟩] =
      some ((([⟨"A", 0, none, some 0.2, none, none, none⟩,
               ⟨"B", 0, none, none, none, none, none⟩,
               ⟨"C", 0, none, some 0.6, none, none, none⟩] :
                List PredRow).map probHighKey).sum / 3) ∧
    avgProbHigh [] = none :=
  ⟨(claim7_avg_prob_high
      [⟨"A", 0, none, some 0.2, none, none, none⟩,
       ⟨"B", 0, none, none, none, none, none⟩,
       ⟨"C", 0, none, some 0.6, none, none, none⟩]).2.1
      (List.cons_ne_nil _ _),
   (claim7_avg_prob_high []).1.mpr rfl⟩

/-! ### Pipeline Run Client (frontend/lib/airflow.ts, `triggerPredictionDag`) -/

/-- Prefix test on char lists. -/
def lcPrefix : List Char → List Char → Bool
  | [], _ => true
  | _ :: _, [] => false
  | a :: s, b :: t => a == b && lcPrefix s t

/-- Substring containment on char lists (`String.prototype.includes`). -/
def lcContains (sub : List Char) : List Char → Bool
  | [] => sub.isEmpty
  | c :: rest => lcPrefix sub (c :: rest) || lcContains sub rest

/-- `hay.includes(sub)` (case-sensitive, as in JavaScript). -/
def strIncludes (hay sub : String) : Bool :=
  lcContains sub.toList hay.toList

/-- Case-insensitive containment: the spec's wording for the benign no-op
check (this is the spec-side definition, compared against the code's
case-sensitive `strIncludes`). -/
def strIncludesCI (hay sub : String) : Bool :=
  lcContains (sub.toList.map jsToLower) (hay.toList.map jsToLower)

/-- The data of a trigger response the classification looks at: `response.ok`
(status in the 2xx range), the status code, and the parsed body's
`detail` / `error` fields. -/
structure TriggerResp where
  ok : Bool
  status : Nat
  detail : Option String
  error : Option String
  deriving DecidableEq, Repr

/-- JavaScript `a || b` on an optional string (empty string is falsy). -/
def jsOrString (a : Option String) (b : String) : String :=
  match a with
  | some s => if s = "" then b else s
  | none => b

/-- `data?.detail || data?.error || "HTTP <status>"`. -/
def errorMsgOf (r : TriggerResp) : String :=
  jsOrString r.detail (jsOrString r.error ("HTTP " ++ toString r.status))

structure TriggerOutcome where
  success : Bool
  message : String
  deriving DecidableEq, Repr

/-- The response classification of `triggerPredictionDag`: the non-2xx branch
checks `errorMsg.includes("No new rows to predict") ||
errorMsg.includes("no new rows")` — two case-sensitive substring tests. -/
def triggerClassify (r : TriggerResp) : TriggerOutcome :=
  if r.ok then ⟨true, "Airflow DAG triggered successfully!"⟩
  else
    let errorMsg := errorMsgOf r
    if strIncludes errorMsg "No new rows to predict" ||
        strIncludes errorMsg "no new rows" then
      ⟨true, "No new rows to predict (INFO: all rows already processed)"⟩
    else ⟨false, errorMsg⟩

/-- Counterexample to C4 as stated: the response is non-2xx and its error
text "NO NEW ROWS TO PREDICT" contains "no new rows" under case-insensitive
comparison, yet the client classifies it as a failure, because the code's
substring checks are case-sensitive. -/
theorem claim4_counterexample :
    ((⟨false, 400, some "NO NEW ROWS TO PREDICT", none⟩ : TriggerResp).ok = false) ∧
    strIncludesCI (errorMsgOf ⟨false, 400, some "NO NEW ROWS TO PREDICT", none⟩)
      "no new rows" = true ∧
    (triggerClassify ⟨false, 400, some "NO NEW ROWS TO PREDICT", none⟩).success = false :=
  ⟨rfl, by decide, by decide⟩

/-- Claim C4 (amended): for a non-2xx trigger response, the client returns a
successful BenignNoOp outcome exactly when the error text contains
"No new rows to predict" or "no new rows" as case-sensitive substrings (not
under case-insensitive comparison); in particular an HTTP 400 with error text
"No new rows to predict" yields a successful outcome. -/
theorem claim4_benign_noop_case_sensitive (r : TriggerResp) (h : r.ok = false) :
    ((triggerClassify r).success = true ↔
      (strIncludes (errorMsgOf r) "No new rows to predict" = true ∨
       strIncludes (errorMsgOf r) "no new rows" = true)) ∧
    (triggerClassify ⟨false, 400, some "No new rows to predict", none⟩).success = true := by
  refine ⟨?_, by decide⟩
  simp only [triggerClassify, h]
  by_cases h1 : strIncludes (errorMsgOf r) "No new rows to predict" = true <;>
    by_cases h2 : strIncludes (errorMsgOf r) "no new rows" = true <;>
      simp [h1, h2]

/-- Witness for C4 (amended) at the HTTP 400 / "No new rows to predict"
response. -/
theorem claim4_benign_noop_case_sensitive_witness :
    (((triggerClassify ⟨false, 400, some "No new rows to predict", none⟩).success = true ↔
      (strIncludes (errorMsgOf ⟨false, 400, some "No new rows to predict", none⟩)
          "No new rows to predict" = true ∨
       strIncludes (errorMsgOf ⟨false, 400, some "No new rows to predict", none⟩)
          "no new rows" = true)) ∧
     (triggerClassify ⟨false, 400, some "No new rows to predict", none⟩).success = true) :=
  claim4_benign_noop_case_sensitive ⟨false, 400, some "No new rows to predict", none⟩ rfl

/-! ### Run Status Poller (frontend/app/upload/page.tsx, `pollDagStatus`) -/

inductive DagState where
  | queued
  | running
  | success
  | failed
  | other (s : String)
  deriving DecidableEq, Repr

/-- One status-fetch result: a parsed state (the `data.success && data.data`
path) or a fetch/parse fault (the `else` branch and the `catch` handler). -/
inductive PollResp where
  | ok (state : DagState)
  | fault
  deriving DecidableEq, Repr

inductive PollOutcome where
  | Success
  | Failed
  | TimedOut
  | PollError
  | Stalled
  deriving DecidableEq, Repr

/-- Observable result of one poll loop: how many status checks ran, how it
ended, and how often the success and failure handlers were invoked. -/
structure PollResult where
  checks : Nat
  outcome : PollOutcome
  successCalls : Nat
  failureCalls : Nat
  deriving DecidableEq, Repr

/-- The recursive `poll` closure: `attempts++` at entry, branch on the fetched
state; on "running"/"queued" (or a fetch fault) schedule another poll only
while `attempts < maxAttempts`, else end in timeout (resp. poll error); on an
unrecognized state the code schedules nothing and the loop stalls.
`resp n` is the result of the (n+1)-th status check. -/
def pollAux (resp : Nat → PollResp) (maxAttempts : Nat) (made : Nat) : PollResult :=
  match resp made with
  | .ok .success => ⟨made + 1, .Success, 1, 0⟩
  | .ok .failed => ⟨made + 1, .Failed, 0, 1⟩
  | .ok .queued | .ok .running =>
      if made + 1 < maxAttempts then pollAux resp maxAttempts (made + 1)
      else ⟨made + 1, .TimedOut, 0, 0⟩
  | .ok (.other _) => ⟨made + 1, .Stalled, 0, 0⟩
  | .fault =>
      if made + 1 < maxAttempts then pollAux resp maxAttempts (made + 1)
      else ⟨made + 1, .PollError, 0, 0⟩
  termination_by maxAttempts - made
  decreasing_by all_goals omega

/-- `pollDagStatus` drives the loop with `maxAttempts = 60`, starting with no
checks made (the first poll fires after an initial delay). -/
def pollDagStatus (resp : Nat → PollResp) : PollResult :=
  pollAux resp 60 0

theorem pollAux_allNonterminal (resp : Nat → PollResp)
    (h : ∀ n, resp n = PollResp.ok DagState.queued ∨ resp n = PollResp.ok DagState.running) :
    ∀ fuel maxAttempts made, maxAttempts - made = fuel → made < maxAttempts →
      pollAux resp maxAttempts made = ⟨maxAttempts, PollOutcome.TimedOut, 0, 0⟩ := by
  intro fuel
  induction fuel with
  | zero => intro ma made hf hlt; omega
  | succ k ih =>
    intro ma made hf hlt
    rw [pollAux]
    rcases h made with hq | hq <;> rw [hq] <;>
      by_cases h2 : made + 1 < ma
    · rw [if_pos h2]; exact ih ma (made + 1) (by omega) h2
    · rw [if_neg h2]
      have he : made + 1 = ma := by omega
      rw [he]
    · rw [if_pos h2]; exact ih ma (made + 1) (by omega) h2
    · rw [if_neg h2]
      have he : made + 1 = ma := by omega
      rw [he]

/-- Claim C5: when every status check reports a non-terminal state ("queued"
or "running"), the poll loop performs exactly 60 status checks, ends in
TimedOut, and never invokes the success or failure handlers. -/
theorem claim5_poller_timeout (resp : Nat → PollResp)
    (h : ∀ n, resp n = PollResp.ok DagState.queued ∨ resp n = PollResp.ok DagState.running) :
    pollDagStatus resp = ⟨60, PollOutcome.TimedOut, 0, 0⟩ :=
  pollAux_allNonterminal resp h 60 60 0 rfl (by omega)

/-- Witness for C5: the constant "running" response stream. -/
theorem claim5_poller_timeout_witness :
    pollDagStatus (fun _ => PollResp.ok DagState.running) =
      ⟨60, PollOutcome.TimedOut, 0, 0⟩ :=
  claim5_poller_timeout (fun _ => PollResp.ok DagState.running) (fun _ => Or.inr rfl)

/-! ### Explanation decoding (queries.ts, `parseShapValues`) -/

/-- Raw `shap_values` column content: null/missing, an encoded string, or an
already-decoded mapping.  An entry value is `Option ℚ`, where `none` stands
for anything on which `Number(...)` is not finite. -/
inductive RawShap where
  | null
  | encoded (s : String)
  | decoded (m : List (String × Option ℚ))

/-- `parseShapValues` from queries.ts, with `JSON.parse` abstracted as a
partial decoding function `dec` (`none` models a thrown decode exception,
caught by the `try/catch`). -/
def parseShapValues (dec : String → Option (List (String × Option ℚ))) :
    RawShap → List (String × Option ℚ)
  | .null => []
  | .encoded s => (dec s).getD []
  | .decoded m => m

/-- Claim C9: decoding never propagates an exception — a null/missing payload
and an encoded string that fails to decode both yield the empty mapping, a
successfully decoded string yields its mapping, and an already-decoded
mapping is returned unchanged. -/
theorem claim9_parse_never_throws (dec : String → Option (List (String × Option ℚ)))
    (s : String) (m : List (String × Option ℚ)) :
    parseShapValues dec RawShap.null = [] ∧
    (dec s = none → parseShapValues dec (RawShap.encoded s) = []) ∧
    (∀ m2, dec s = some m2 → parseShapValues dec (RawShap.encoded s) = m2) ∧
    parseShapValues dec (RawShap.decoded m) = m := by
  refine ⟨rfl, ?_, ?_, rfl⟩
  · intro h; simp [parseShapValues, h]
  · intro m2 h; simp [parseShapValues, h]

/-- Witness for C9 with an always-failing decoder. -/
theorem claim9_parse_never_throws_witness :
    parseShapValues (fun _ => none) RawShap.null = [] ∧
    parseShapValues (fun _ => none) (RawShap.encoded "not json") = [] ∧
    parseShapValues (fun _ => none) (RawShap.decoded [("a", some 1)]) =
      [("a", some 1)] :=
  ⟨(claim9_parse_never_throws (fun _ => none) "not json" [("a", some 1)]).1,
   (claim9_parse_never_throws (fun _ => none) "not json" [("a", some 1)]).2.1 rfl,
   (claim9_parse_never_throws (fun _ => none) "not json" [("a", some 1)]).2.2.2⟩

/-! ### Explanation Ranker (app/shap/page.tsx and `getLatest3ShapSummaries`) -/

/-- The shared ranking pipeline of both call sites: `Object.entries(...)
.map(([f, v]) => Number(v)).filter(Number.isFinite)
.sort((a, b) => Math.abs(b.shap) - Math.abs(a.shap))`. -/
def rankedShapEntries (m : List (String × Option ℚ)) : List (String × ℚ) :=
  List.insertionSort (keyDesc (fun x : String × ℚ => |x.2|))
    (m.filterMap (fun e => e.2.map (fun q => (e.1, q))))

/-- ShapPage detail view: `shapEntries.filter((x) => x.value > 0).slice(0, 5)`. -/
def shapIncreasing (m : List (String × Option ℚ)) : List (String × ℚ) :=
  ((rankedShapEntries m).filter (fun x => 0 < x.2)).take 5

/-- ShapPage detail view: `shapEntries.filter((x) => x.value < 0).slice(0, 5)`. -/
def shapReducing (m : List (String × Option ℚ)) : List (String × ℚ) :=
  ((rankedShapEntries m).filter (fun x => x.2 < 0)).take 5

inductive Direction where
  | increases
  | reduces
  deriving DecidableEq, Repr

structure TopFeature where
  feature : String
  shap : ℚ
  direction : Direction
  deriving DecidableEq, Repr

/-- `getLatest3ShapSummaries` per-prediction top features: `.slice(0, 3)` of
the ranked list, each tagged `x.shap >= 0 ? "increases" : "reduces"`. -/
def shapTop3 (m : List (String × Option ℚ)) : List TopFeature :=
  ((rankedShapEntries m).take 3).map
    (fun x => ⟨x.1, x.2, if 0 ≤ x.2 then Direction.increases else Direction.reduces⟩)

/-- Claim C8: the ranker keeps only finite numeric contributions, sorts by
absolute magnitude descending, classifies direction as "increases" exactly
when the signed value is ≥ 0; the detail view takes the top 5 positive and
top 5 negative entries by sign-filtering that same sorted list, and the
summary view takes the top 3 by magnitude regardless of sign; on
a 0.5, b -0.8, c 0.1, d non-numeric the ranked list is b, a, c. -/
theorem claim8_explanation_ranker (m : List (String × Option ℚ)) :
    List.Sorted (keyDesc (fun x : String × ℚ => |x.2|)) (rankedShapEntries m) ∧
    List.Perm (rankedShapEntries m)
      (m.filterMap (fun e => e.2.map (fun q => (e.1, q)))) ∧
    (∀ t ∈ shapTop3 m, (t.direction = Direction.increases ↔ 0 ≤ t.shap)) ∧
    shapIncreasing m = ((rankedShapEntries m).filter (fun x => 0 < x.2)).take 5 ∧
    shapReducing m = ((rankedShapEntries m).filter (fun x => x.2 < 0)).take 5 ∧
    shapTop3 m = ((rankedShapEntries m).take 3).map
      (fun x => ⟨x.1, x.2, if 0 ≤ x.2 then Direction.increases else Direction.reduces⟩) ∧
    rankedShapEntries
        [("a", some (mkRat 1 2)), ("b", some (-(mkRat 4 5))),
         ("c", some (mkRat 1 10)), ("d", none)] =
      [("b", -(mkRat 4 5)), ("a", mkRat 1 2), ("c", mkRat 1 10)] ∧
    shapTop3
        [("a", some (mkRat 1 2)), ("b", some (-(mkRat 4 5))),
         ("c", some (mkRat 1 10)), ("d", none)] =
      [⟨"b", -(mkRat 4 5), Direction.reduces⟩, ⟨"a", mkRat 1 2, Direction.increases⟩,
       ⟨"c", mkRat 1 10, Direction.increases⟩] := by
  refine ⟨List.sorted_insertionSort _ _, List.perm_insertionSort _ _, ?_, rfl, rfl, rfl,
    by decide, by decide⟩
  intro t ht
  simp only [shapTop3, List.mem_map] at ht
  obtain ⟨x, _, rfl⟩ := ht
  by_cases h : 0 ≤ x.2 <;> simp [h]

/-- Witness for C8: the direction classification instantiated at the top
entry of the spec's example mapping. -/
theorem claim8_explanation_ranker_witness :
    ((⟨"b", -(mkRat 4 5), Direction.reduces⟩ : TopFeature) ∈ shapTop3
        [("a", some (mkRat 1 2)), ("b", some (-(mkRat 4 5))),
         ("c", some (mkRat 1 10)), ("d", none)]) ∧
    ((⟨"b", -(mkRat 4 5), Direction.reduces⟩ : TopFeature).direction = Direction.increases ↔
      0 ≤ (⟨"b", -(mkRat 4 5), Direction.reduces⟩ : TopFeature).shap) :=
  ⟨by decide,
   (claim8_explanation_ranker
      [("a", some (mkRat 1 2)), ("b", some (-(mkRat 4 5))),
       ("c", some (mkRat 1 10)), ("d", none)]).2.2.1
      ⟨"b", -(mkRat 4 5), Direction.reduces⟩ (by decide)⟩

/-! ### Unscored-row count (queries.ts, `getUnpredictedCount`) -/

/-- The part of a `supplier_risk_master` row the unscored-row count looks at
(the metric columns do not influence the count). -/
structure RiskMasterRow where
  supplier_id : String
  date : Nat
  is_predicted : Option Bool
  deriving DecidableEq, Repr

/-- `getUnpredictedCount`: a head-only exact count with the filter
`or(is_predicted.eq.false, is_predicted.is.null)` — the gateway keeps a row
when the flag equals false or is null. -/
def getUnpredictedCount (rows : List RiskMasterRow) : Nat :=
  (rows.filter (fun r => r.is_predicted = some false ∨ r.is_predicted = none)).length

/-- Claim C10: the unscored-row count counts a row as unscored not only when
its flag is false but also when the flag is null/missing: it equals the count
of rows whose flag is anything but true, and a null-flag row is kept by the
filter; on flags false, null, true the count is 2. -/
theorem claim10_unpredicted_includes_null (rows : List RiskMasterRow) :
    getUnpredictedCount rows =
      (rows.filter (fun r => r.is_predicted ≠ some true)).length ∧
    (∀ r ∈ rows, r.is_predicted = none →
      r ∈ rows.filter (fun r => r.is_predicted = some false ∨ r.is_predicted = none)) ∧
    getUnpredictedCount
      [⟨"S1", 0, some false⟩, ⟨"S2", 0, none⟩, ⟨"S3", 0, some true⟩] = 2 := by
  refine ⟨?_, ?_, by decide⟩
  · unfold getUnpredictedCount
    congr 1
    apply List.filter_congr
    intro r _
    cases r.is_predicted with
    | none => simp
    | some b => cases b <;> simp
  · intro r hr h
    rw [List.mem_filter]
    exact ⟨hr, by simp [h]⟩

/-- Witness for C10: a null-flag row is counted as unscored. -/
theorem claim10_unpredicted_includes_null_witness :
    ((⟨"S2", 0, none⟩ : RiskMasterRow) ∈
      ([⟨"S1", 0, some false⟩, ⟨"S2", 0, none⟩, ⟨"S3", 0, some true⟩] :
          List RiskMasterRow).filter
        (fun r => r.is_predicted = some false ∨ r.is_predicted = none)) ∧
    getUnpredictedCount
      [⟨"S1", 0, some false⟩, ⟨"S2", 0, none⟩, ⟨"S3", 0, some true⟩] = 2 :=
  ⟨(claim10_unpredicted_includes_null
      [⟨"S1", 0, some false⟩, ⟨"S2", 0, none⟩, ⟨"S3", 0, some true⟩]).2.1
      ⟨"S2", 0, none⟩ (by decide) rfl,
   (claim10_unpredicted_includes_null
      [⟨"S1", 0, some false⟩, ⟨"S2", 0, none⟩, ⟨"S3", 0, some true⟩]).2.2⟩

end SRRM
